import Mathlib

/-!
Verification of the file-concatenation tool (`concat_files.py`).

The source is shallowly embedded: filesystem entries become lists of path
segments, file reads become an `String → Option String` oracle (where `none`
models a read/decode failure caught by the `try`/`except` in the writer loop),
and the process pool becomes the list of per-partition writer results (the
workers share no state, so the pool is observationally a `map`).
-/

namespace ConcatFiles

/-- Python slice `l[s:e]` for non-negative indices: drop `s`, then take
`e - s` elements (both ends clamp to the list length). -/
def pySlice {α : Type} (l : List α) (s e : Nat) : List α :=
  (l.drop s).take (e - s)

/-- A filesystem entry as seen by `pathlib`: the tuple `path.parts` of path
segments, and whether `is_file()` holds. -/
structure FSEntry where
  parts : List String
  isFile : Bool
deriving DecidableEq, Repr

/-- `pathlib.PurePath.name`: the final path component. -/
def entryName (f : FSEntry) : String :=
  f.parts.getLastD ""

/-- Index of the last `.` in a list of characters, if any
(Python `str.rfind`). -/
def rfindDot (l : List Char) : Option Nat :=
  match l.reverse.findIdx? (fun ch => ch = '.') with
  | none => none
  | some j => some (l.length - 1 - j)

/-- `pathlib.PurePath.suffix` computed on a file name: `name[i:]` where `i` is
the index of the last dot, provided `0 < i < len(name) - 1`; otherwise `""`.
This is the rule of the `pathlib` source the code calls. -/
def pySuffix (name : String) : String :=
  match rfindDot name.data with
  | none => ""
  | some i => if 0 < i ∧ i < name.data.length - 1 then ⟨name.data.drop i⟩ else ""

/-- `should_ignore` (concat_files.py:13-21):
`any(pattern in path.parts for pattern in ignore_patterns)` — the membership
test `pattern in path.parts` is equality of the pattern with a whole segment. -/
def should_ignore (f : FSEntry) (ignore_patterns : List String) : Bool :=
  ignore_patterns.any (fun pat => f.parts.contains pat)

/-- The filter of `get_file_paths` (concat_files.py:32-35):
`file.is_file() and file.suffix in file_extensions and not should_ignore(...)`. -/
def keepsFile (ignore_patterns file_extensions : List String) (f : FSEntry) : Bool :=
  f.isFile && file_extensions.contains (pySuffix (entryName f))
    && !(should_ignore f ignore_patterns)

/-- `get_file_paths` (concat_files.py:23-35) applied to the entries yielded by
`root_dir.rglob('*')` (given here as an explicit list, in traversal order). -/
def get_file_paths (entries : List FSEntry) (ignore_patterns file_extensions : List String) :
    List FSEntry :=
  entries.filter (keepsFile ignore_patterns file_extensions)

/-- `root_dir.rglob('*')`: every yielded path is the root's segments followed
by the segments of a path relative to the root; `rels` lists the relative
parts and the `is_file()` status of each entry, in traversal order. -/
def rglob (rootParts : List String) (rels : List (List String × Bool)) : List FSEntry :=
  rels.map (fun r => ⟨rootParts ++ r.1, r.2⟩)

/-- The diagnostic printed by the writer's `except` branch
(concat_files.py:70), without the exception text. -/
def errMsg (p : String) : String :=
  "Could not process file " ++ p

/-- The `txt` branch of the writer (concat_files.py:68):
`f'// File: {file_path}\n{content}\n\n'`. -/
def txtEntry (p c : String) : String :=
  "// File: " ++ p ++ "\n" ++ c ++ "\n\n"

/-- Modelled from the spec: the composition of pygments
`highlight(content, lexer, TerminalFormatter())` (an external collaborator,
not in the repository) with the source's ANSI-escape removal
`re.sub(r'\x1b\[[0-9;]*m', '', highlighted)` is, per the spec, a net
passthrough "leaving the plain token text with the same line/character
content as the original source". It is therefore modelled as the identity
on the content. -/
def highlightedThenCleaned (c : String) : String := c

/-- The characters Python's `str.strip()` removes: exactly those with
`str.isspace()` true, i.e. U+0009–U+000D, U+001C–U+001F, the space, U+0085,
U+00A0, U+1680, U+2000–U+200A, U+2028, U+2029, U+202F, U+205F and U+3000. -/
def isPyWs (ch : Char) : Bool :=
  (0x09 ≤ ch.toNat && ch.toNat ≤ 0x0d) || (0x1c ≤ ch.toNat && ch.toNat ≤ 0x1f)
    || ch.toNat = 0x20 || ch.toNat = 0x85 || ch.toNat = 0xa0 || ch.toNat = 0x1680
    || (0x2000 ≤ ch.toNat && ch.toNat ≤ 0x200a) || ch.toNat = 0x2028
    || ch.toNat = 0x2029 || ch.toNat = 0x202f || ch.toNat = 0x205f
    || ch.toNat = 0x3000

/-- Python `str.strip()`: remove leading and trailing whitespace. -/
def pyStrip (s : String) : String :=
  ⟨((s.data.dropWhile isPyWs).reverse.dropWhile isPyWs).reverse⟩

/-- `true` iff the string neither starts nor ends with whitespace. -/
def noEdgeWs (s : String) : Bool :=
  (s.data.take 1).all (fun ch => !isPyWs ch)
    && (s.data.reverse.take 1).all (fun ch => !isPyWs ch)

/-- The `md` branch of the writer (concat_files.py:52-66): a level-2 heading,
then a fenced code block tagged with the lexer alias, whose body is
`clean_content.strip()`. -/
def mdEntry (aliasName p c : String) : String :=
  "## File: " ++ p ++ "\n\n" ++ "```" ++ aliasName ++ "\n"
    ++ pyStrip (highlightedThenCleaned c) ++ "\n```\n\n"

/-- The bytes one file contributes to the output (concat_files.py:51-68):
the `md` entry when `output_format == 'md'`, else the `txt` entry.
`aliasOf` models the external `get_lexer_for_filename` alias lookup
(falling back to `TextLexer`), a collaborator outside the repository. -/
def fileEntry (aliasOf : String → String) (fmt p c : String) : String :=
  if fmt = "md" then mdEntry (aliasOf p) p c else txtEntry p c

/-- One iteration of the writer loop (concat_files.py:48-70): read the file;
on success append its entry to the output, on failure append a diagnostic to
the error channel and write nothing. `read p = none` models
`file_path.read_text(encoding='utf-8')` raising; the `except` catches it, so
the step is a total function. -/
def writeStep (read : String → Option String) (aliasOf : String → String) (fmt : String)
    (acc : String × List String) (p : String) : String × List String :=
  match read p with
  | some c => (acc.1 ++ fileEntry aliasOf fmt p c, acc.2)
  | none => (acc.1, acc.2 ++ [errMsg p])

/-- `write_concatenated_file` (concat_files.py:37-70): open the output for
fresh writing and loop over `file_paths[start_index:end_index]` in order.
Returns the bytes written and the diagnostics printed. -/
def write_concatenated_file (read : String → Option String) (aliasOf : String → String)
    (fmt : String) (file_paths : List String) (start_index end_index : Nat) :
    String × List String :=
  (pySlice file_paths start_index end_index).foldl (writeStep read aliasOf fmt) ("", [])

/-- `math.ceil(len(file_paths) / num_files)` (concat_files.py:96), for
`num_files ≥ 1`: the ceiling division `(L + N - 1) / N`. -/
def filesPerOutput (L N : Nat) : Nat :=
  (L + N - 1) / N

/-- `start_index = i * files_per_output` (concat_files.py:102). -/
def startIndex (L N i : Nat) : Nat :=
  i * filesPerOutput L N

/-- `end_index = min((i + 1) * files_per_output, len(file_paths))`
(concat_files.py:103). -/
def endIndex (L N i : Nat) : Nat :=
  min ((i + 1) * filesPerOutput L N) L

/-- The `N` half-open index ranges the partitioner assigns to the `N`
writer tasks (concat_files.py:100-103). -/
def partitions (L N : Nat) : List (Nat × Nat) :=
  (List.range N).map (fun i => (startIndex L N i, endIndex L N i))

/-- Membership of index `k` in partition `i`. -/
def inPartition (L N i k : Nat) : Prop :=
  startIndex L N i ≤ k ∧ k < endIndex L N i

/-- The output-file name for task `i` (0-based):
`output_dir / f'concatenated_part_{i+1}.{output_format}'`
(concat_files.py:101). -/
def outputName (output_dir : String) (i : Nat) (fmt : String) : String :=
  output_dir ++ "/concatenated_part_" ++ toString (i + 1) ++ "." ++ fmt

/-- `process_files` (concat_files.py:84-107): enumerate is done by the caller
(`file_paths` is the enumerated list); computing `files_per_output` divides by
`num_files`, so `num_files = 0` raises `ZeroDivisionError` before any task is
submitted and before any output file is created — modelled as `none`, with no
outputs. Otherwise one writer task per `i < num_files` produces the file
`(name, contents)`; workers are independent, so the pool result is the list of
per-task results in partition order. -/
def process_files (read : String → Option String) (aliasOf : String → String)
    (file_paths : List String) (output_dir : String) (num_files : Nat) (fmt : String) :
    Option (List (String × String)) :=
  if num_files = 0 then none
  else
    some ((List.range num_files).map (fun i =>
      (outputName output_dir i fmt,
       (write_concatenated_file read aliasOf fmt file_paths
         (startIndex file_paths.length num_files i)
         (endIndex file_paths.length num_files i)).1)))

/-- Opening a path with mode `'w'` (concat_files.py:47) truncates whatever was
there: the resulting on-disk prefix is empty regardless of the previous
contents (`none` = the file did not exist). -/
def openForWrite (_prev : Option String) : String := ""

/-- The on-disk contents of the output file after one writer run in `txt`
format, starting from previous disk contents `prev`. -/
def fileAfterRun (prev : Option String) (read : String → Option String)
    (aliasOf : String → String) (file_paths : List String) (s e : Nat) : String :=
  openForWrite prev ++ (write_concatenated_file read aliasOf "txt" file_paths s e).1

/-- Concatenation of a list of strings in order. -/
def strJoin (l : List String) : String :=
  l.foldr (fun a b => a ++ b) ""

/-! ### Helper lemmas -/

theorem le_mul_filesPerOutput (L N : Nat) (hN : 1 ≤ N) : L ≤ N * filesPerOutput L N := by
  show L ≤ N * ((L + N - 1) / N)
  have hdm := Nat.div_add_mod (L + N - 1) N
  have hm : (L + N - 1) % N < N := Nat.mod_lt _ (by omega)
  generalize N * ((L + N - 1) / N) = m at hdm ⊢
  omega

theorem filesPerOutput_pos (L N : Nat) (hN : 1 ≤ N) (hL : 1 ≤ L) :
    1 ≤ filesPerOutput L N := by
  show 1 ≤ (L + N - 1) / N
  rw [Nat.one_le_div_iff (by omega)]
  omega

theorem lt_div_succ_mul (k c : Nat) (hc : 0 < c) : k < (k / c + 1) * c := by
  have hdm := Nat.div_add_mod k c
  have hm : k % c < c := Nat.mod_lt _ hc
  have hr : (k / c + 1) * c = c * (k / c) + c := by ring
  rw [hr]
  generalize c * (k / c) = m at hdm ⊢
  omega

theorem filesPerOutput_le (L N m : Nat) (hN : 1 ≤ N) (h : L ≤ N * m) :
    filesPerOutput L N ≤ m := by
  show (L + N - 1) / N ≤ m
  rw [← Nat.lt_succ_iff, Nat.succ_eq_add_one, Nat.div_lt_iff_lt_mul (by omega)]
  have hr : (m + 1) * N = N * m + N := by ring
  rw [hr]
  generalize N * m = t at h ⊢
  omega

theorem endIndex_le_startIndex_of_trailing (L N i : Nat) (hLN : L < N) (hi : L ≤ i) :
    endIndex L N i ≤ startIndex L N i := by
  unfold endIndex startIndex
  rcases Nat.eq_zero_or_pos L with hL | hL
  · subst hL
    have h0 : filesPerOutput 0 N = 0 := by
      show (0 + N - 1) / N = 0
      exact Nat.div_eq_of_lt (by omega)
    simp [h0]
  · have h1 : filesPerOutput L N = 1 := by
      show (L + N - 1) / N = 1
      exact Nat.div_eq_of_lt_le (by omega) (by omega)
    rw [h1]
    simp only [Nat.mul_one]
    omega

theorem getD_map_range {α : Type} (f : Nat → α) (N i : Nat) (d : α) (h : i < N) :
    ((List.range N).map f).getD i d = f i := by
  rw [List.getD_eq_getElem?_getD, List.getElem?_map, List.getElem?_range h]
  rfl

theorem write_empty_of_le (read : String → Option String) (aliasOf : String → String)
    (fmt : String) (fps : List String) {s e : Nat} (h : e ≤ s) :
    write_concatenated_file read aliasOf fmt fps s e = ("", []) := by
  unfold write_concatenated_file pySlice
  rw [Nat.sub_eq_zero_of_le h, List.take_zero]
  rfl

/-! ### Claim theorems -/

/-- C1: for every file-list length `L` and partition count `N ≥ 1`, the
partitioner computes `chunkSize = ceil(L / N)` (characterized as the least `m`
with `L ≤ N * m`) and produces exactly `N` half-open ranges
`[i*chunkSize, min((i+1)*chunkSize, L))`; these ranges are pairwise disjoint,
their union is exactly `[0, L)`, and the trailing ranges (indices `≥ L`) are
empty when `N > L`. -/
theorem partitioner_ranges_correct (L N : Nat) (hN : 1 ≤ N) :
    (partitions L N).length = N ∧
    (∀ i, i < N → (partitions L N).getD i (0, 0) =
      (i * filesPerOutput L N, min ((i + 1) * filesPerOutput L N) L)) ∧
    (L ≤ N * filesPerOutput L N ∧ ∀ m, L ≤ N * m → filesPerOutput L N ≤ m) ∧
    (∀ i j k, i < j → inPartition L N i k → ¬ inPartition L N j k) ∧
    (∀ k, k < L ↔ ∃ i, i < N ∧ inPartition L N i k) ∧
    (L < N → ∀ i, L ≤ i → ∀ k, ¬ inPartition L N i k) := by
  refine ⟨by simp [partitions], ?_, ⟨le_mul_filesPerOutput L N hN, fun m hm =>
    filesPerOutput_le L N m hN hm⟩, ?_, ?_, ?_⟩
  · intro i hi
    unfold partitions
    rw [getD_map_range _ N i (0, 0) hi]
    rfl
  · intro i j k hij hik hjk
    simp only [inPartition] at hik hjk
    have h1 : endIndex L N i ≤ (i + 1) * filesPerOutput L N := Nat.min_le_left _ _
    have h2 : (i + 1) * filesPerOutput L N ≤ j * filesPerOutput L N :=
      Nat.mul_le_mul_right _ hij
    have h3 : startIndex L N j = j * filesPerOutput L N := rfl
    omega
  · intro k
    constructor
    · intro hk
      have hL : 1 ≤ L := by omega
      have hc : 0 < filesPerOutput L N := filesPerOutput_pos L N hN hL
      refine ⟨k / filesPerOutput L N, ?_, ?_, ?_⟩
      · rw [Nat.div_lt_iff_lt_mul hc]
        exact Nat.lt_of_lt_of_le hk (le_mul_filesPerOutput L N hN)
      · exact Nat.div_mul_le_self k (filesPerOutput L N)
      · exact lt_min (lt_div_succ_mul k (filesPerOutput L N) hc) hk
    · rintro ⟨i, _, hin⟩
      simp only [inPartition] at hin
      have : endIndex L N i ≤ L := Nat.min_le_right _ _
      omega
  · intro hLN i hi k hin
    simp only [inPartition] at hin
    have := endIndex_le_startIndex_of_trailing L N i hLN hi
    omega

/-- Witness for C1 at `L = 5`, `N = 2`. -/
theorem partitioner_ranges_correct_witness : (partitions 5 2).length = 2 :=
  (partitioner_ranges_correct 5 2 (by decide)).1

theorem writeFold_spec (read : String → Option String) (aliasOf : String → String)
    (fmt : String) (files : List String) (acc : String × List String) :
    files.foldl (writeStep read aliasOf fmt) acc =
      (acc.1 ++ strJoin (files.filterMap (fun p => (read p).map (fileEntry aliasOf fmt p))),
       acc.2 ++ (files.filter (fun p => (read p).isNone)).map errMsg) := by
  induction files generalizing acc with
  | nil => simp [strJoin]
  | cons p rest ih =>
    simp only [List.foldl_cons, List.filterMap_cons, List.filter_cons]
    cases hrp : read p with
    | none =>
      simp only [writeStep, hrp, Option.map_none', Option.isNone_none, List.map_cons]
      rw [ih]
      simp [List.append_assoc]
    | some c =>
      simp only [writeStep, hrp, Option.map_some', Option.isNone_some]
      rw [ih]
      simp [strJoin, String.append_assoc]

/-- C3: a read/decode failure of one file in a partition slice is caught: the
writer emits a diagnostic for exactly the failing files, omits their header
and body entirely, still writes every successfully read file of the slice in
order, and — being a total function of its inputs — never propagates the
failure out of the task. -/
theorem writer_skips_failing_files (read : String → Option String)
    (aliasOf : String → String) (fmt : String) (fps : List String) (s e : Nat) :
    write_concatenated_file read aliasOf fmt fps s e =
      (strJoin ((pySlice fps s e).filterMap
         (fun p => (read p).map (fileEntry aliasOf fmt p))),
       ((pySlice fps s e).filter (fun p => (read p).isNone)).map errMsg) := by
  unfold write_concatenated_file
  rw [writeFold_spec]
  simp

/-- C5: under the `txt` format, a successfully read file contributes to the
output exactly the header line `// File: <path>`, a newline, the raw content
unchanged, and a blank-line separator; the error channel is untouched. -/
theorem txt_entry_exact (read : String → Option String) (aliasOf : String → String)
    (acc : String × List String) (p c : String) (h : read p = some c) :
    writeStep read aliasOf "txt" acc p =
      (acc.1 ++ ("// File: " ++ p ++ "\n" ++ c ++ "\n\n"), acc.2) := by
  simp [writeStep, h, fileEntry, txtEntry]

/-- Witness for C5: a concrete read oracle and file. -/
theorem txt_entry_exact_witness :
    writeStep (fun _ => some "body") (fun _ => "") "txt" ("", []) "a.py" =
      ("" ++ ("// File: " ++ "a.py" ++ "\n" ++ "body" ++ "\n\n"), []) :=
  txt_entry_exact (fun _ => some "body") (fun _ => "") ("", []) "a.py" "body" rfl

theorem pySlice_eq_map_range {α : Type} (d : α) (l : List α) (s e : Nat) :
    pySlice l s e = (List.range (min e l.length - s)).map (fun k => l.getD (s + k) d) := by
  apply List.ext_getElem
  · simp only [pySlice, List.length_take, List.length_drop, List.length_map,
      List.length_range]
    omega
  · intro n h1 h2
    have hlen : s + n < l.length := by
      simp only [pySlice, List.length_take, List.length_drop] at h1
      omega
    simp only [pySlice, List.getElem_take, List.getElem_drop, List.getElem_map,
      List.getElem_range]
    rw [List.getD_eq_getElem?_getD, List.getElem?_eq_getElem hlen]
    rfl

/-- C6: within one output file the written entries follow exactly the global
enumeration indices `start, start+1, …` of the slice, in increasing order —
the writer applies no reordering or sorting. -/
theorem writer_preserves_enumeration_order (read : String → Option String)
    (aliasOf : String → String) (fmt : String) (fps : List String) (s e : Nat) :
    (write_concatenated_file read aliasOf fmt fps s e).1 =
      strJoin (((List.range (min e fps.length - s)).map (fun k => fps.getD (s + k) "")).filterMap
        (fun p => (read p).map (fileEntry aliasOf fmt p))) := by
  unfold write_concatenated_file
  rw [writeFold_spec, ← pySlice_eq_map_range ""]
  simp

/-- C7: the writer is a deterministic function of the slice and read results,
and mode-`'w'` truncation makes the on-disk result independent of previous
file contents: a second run over the disk state left by the first produces
byte-identical output, as does a run from any other starting state. -/
theorem writer_runs_idempotent (prev : Option String) (read : String → Option String)
    (aliasOf : String → String) (fps : List String) (s e : Nat) :
    fileAfterRun (some (fileAfterRun prev read aliasOf fps s e)) read aliasOf fps s e =
      fileAfterRun prev read aliasOf fps s e ∧
    ∀ prev2, fileAfterRun prev2 read aliasOf fps s e =
      fileAfterRun prev read aliasOf fps s e :=
  ⟨rfl, fun _ => rfl⟩

/-- C2: `should_ignore` rejects a path iff some single path segment is exactly
equal to a member of the ignore set; a path no segment of which matches is in
the enumerated list iff it was yielded by the walk, is a regular file, and its
suffix (leading dot included) is in the extension set; and a path with a
matching segment appears neither in the enumerated list nor in any partition
slice handed to a writer, whatever its extension. -/
theorem path_filter_segment_rule (entries : List FSEntry) (ig exts : List String)
    (f : FSEntry) :
    (should_ignore f ig = true ↔ ∃ seg, seg ∈ f.parts ∧ seg ∈ ig) ∧
    (should_ignore f ig = false →
      (f ∈ get_file_paths entries ig exts ↔
        f ∈ entries ∧ f.isFile = true ∧ pySuffix (entryName f) ∈ exts)) ∧
    (should_ignore f ig = true →
      f ∉ get_file_paths entries ig exts ∧
      ∀ s e, f ∉ pySlice (get_file_paths entries ig exts) s e) := by
  refine ⟨?_, ?_, ?_⟩
  · simp only [should_ignore, List.any_eq_true, List.elem_iff, decide_eq_true_eq]
    constructor
    · rintro ⟨pat, hpat, hmem⟩
      exact ⟨pat, hmem, hpat⟩
    · rintro ⟨seg, hmem, hseg⟩
      exact ⟨seg, hseg, hmem⟩
  · intro hni
    simp [get_file_paths, List.mem_filter, keepsFile, hni]
  · intro hig
    have hnotin : f ∉ get_file_paths entries ig exts := by
      simp [get_file_paths, List.mem_filter, keepsFile, hig]
    refine ⟨hnotin, fun s e hmem => ?_⟩
    exact hnotin (List.mem_of_mem_drop (List.mem_of_mem_take hmem))

/-- Witness for C2: with ignore pattern `node_modules`, the file
`node_modules/c.js` is excluded from enumeration although `.js` is accepted. -/
theorem path_filter_segment_rule_witness :
    (⟨["node_modules", "c.js"], true⟩ : FSEntry) ∉
      get_file_paths [⟨["node_modules", "c.js"], true⟩] ["node_modules"] [".js"] :=
  ((path_filter_segment_rule [⟨["node_modules", "c.js"], true⟩] ["node_modules"]
    [".js"] ⟨["node_modules", "c.js"], true⟩).2.2 (by decide)).1

/-- C9: `should_ignore` tests every component of the full path, the root
directory's own components included, so when the root's path contains a
component equal to an ignore pattern, every file yielded by `rglob` is
rejected and enumeration returns the empty list. -/
theorem ignored_root_component_empties_enumeration (rootParts : List String)
    (rels : List (List String × Bool)) (ig exts : List String) (pat : String)
    (h1 : pat ∈ ig) (h2 : pat ∈ rootParts) :
    get_file_paths (rglob rootParts rels) ig exts = [] := by
  unfold get_file_paths
  rw [List.filter_eq_nil_iff]
  intro f hf
  obtain ⟨r, _, hfr⟩ := List.mem_map.mp hf
  have hparts : pat ∈ f.parts := by
    rw [← hfr]
    exact List.mem_append_left _ h2
  have hig : should_ignore f ig = true := by
    simp only [should_ignore, List.any_eq_true, List.elem_iff, decide_eq_true_eq]
    exact ⟨pat, h1, hparts⟩
  simp [keepsFile, hig]

/-- Witness for C9: a root living under `node_modules` with an eligible
`.js` file below it still enumerates nothing. -/
theorem ignored_root_component_witness :
    get_file_paths (rglob ["node_modules", "pkg"] [(["c.js"], true)])
      ["node_modules"] [".js"] = [] :=
  ignored_root_component_empties_enumeration ["node_modules", "pkg"]
    [(["c.js"], true)] ["node_modules"] [".js"] "node_modules" (by decide) (by decide)

/-- C4: a run with requested output count `N ≥ 1` creates exactly `N` output
files, named `output_dir/concatenated_part_<i>.<ext>` for `i = 1..N` with the
extension equal to the chosen format; when `N` exceeds the number of
enumerated files the trailing output files are still created and empty. -/
theorem dispatcher_output_files (read : String → Option String)
    (aliasOf : String → String) (fps : List String) (dir fmt : String) (N : Nat)
    (hN : 1 ≤ N) :
    ∃ outs, process_files read aliasOf fps dir N fmt = some outs ∧
      outs.length = N ∧
      (∀ i, i < N → (outs.getD i ("", "")).1 =
        dir ++ "/concatenated_part_" ++ toString (i + 1) ++ "." ++ fmt) ∧
      (fps.length < N → ∀ i, fps.length ≤ i → i < N →
        (outs.getD i ("", "")).2 = "") := by
  have hN0 : ¬ N = 0 := by omega
  refine ⟨(List.range N).map (fun i =>
    (outputName dir i fmt,
     (write_concatenated_file read aliasOf fmt fps (startIndex fps.length N i)
       (endIndex fps.length N i)).1)), ?_, by simp, ?_, ?_⟩
  · simp [process_files, hN0]
  · intro i hi
    rw [getD_map_range _ N i ("", "") hi]
    rfl
  · intro hLN i hiL hiN
    rw [getD_map_range _ N i ("", "") hiN]
    have hle := endIndex_le_startIndex_of_trailing fps.length N i hLN hiL
    rw [write_empty_of_le read aliasOf fmt fps hle]

/-- Witness for C4 at `N = 3` with a single enumerated file. -/
theorem dispatcher_output_files_witness :
    ∃ outs, process_files (fun _ => some "x") (fun _ => "") ["a"] "out" 3 "txt" =
      some outs ∧ outs.length = 3 := by
  obtain ⟨outs, h1, h2, _, _⟩ :=
    dispatcher_output_files (fun _ => some "x") (fun _ => "") ["a"] "out" "txt" 3
      (by decide)
  exact ⟨outs, h1, h2⟩

/-- C10: calling `process_files` with `num_files = 0` fails while computing
`files_per_output` (`math.ceil(len(file_paths) / 0)` raises
`ZeroDivisionError`), before any writer task is submitted and before any
output file is created, so no outputs are produced. -/
theorem zero_num_files_division_error (read : String → Option String)
    (aliasOf : String → String) (fps : List String) (dir fmt : String) :
    process_files read aliasOf fps dir 0 fmt = none := by
  simp [process_files]

theorem dropWhile_eq_self_of_head (l : List Char)
    (h : (l.take 1).all (fun ch => !isPyWs ch) = true) :
    l.dropWhile isPyWs = l := by
  cases l with
  | nil => rfl
  | cons a t =>
    have ha : isPyWs a = false := by
      simpa using h
    simp [List.dropWhile_cons, ha]

theorem pyStrip_eq_self (s : String) (h : noEdgeWs s = true) : pyStrip s = s := by
  unfold noEdgeWs at h
  rw [Bool.and_eq_true] at h
  unfold pyStrip
  rw [dropWhile_eq_self_of_head s.data h.1,
    dropWhile_eq_self_of_head s.data.reverse h.2, List.reverse_reverse]

/-- C8 counterexample: the claim says the fenced code block body has the same
line/character content as the original source; with content `"  x"` the body
is `"x"` (the writer calls `str.strip()` on the cleaned content,
concat_files.py:66), so the claim as stated is false. -/
theorem md_body_not_passthrough_counterexample :
    pyStrip (highlightedThenCleaned "  x") ≠ "  x" := by
  decide

/-- C8 amended: the fenced code block body equals the highlight-then-clean
passthrough of the original content with leading and trailing whitespace
removed by `str.strip()`; in particular content with no leading or trailing
whitespace passes through unchanged. -/
theorem md_body_passthrough_up_to_strip (aliasName p c : String) :
    mdEntry aliasName p c =
      "## File: " ++ p ++ "\n\n" ++ "```" ++ aliasName ++ "\n"
        ++ pyStrip (highlightedThenCleaned c) ++ "\n```\n\n" ∧
    (noEdgeWs c = true → pyStrip (highlightedThenCleaned c) = c) :=
  ⟨rfl, fun h => pyStrip_eq_self c h⟩

/-- Witness for C8 (amended) at content `"ab"`. -/
theorem md_body_passthrough_witness :
    pyStrip (highlightedThenCleaned "ab") = "ab" :=
  (md_body_passthrough_up_to_strip "" "x" "ab").2 (by decide)

end ConcatFiles
